import Mathlib

/-!
Shallow embedding of the turnaround-aware calendar layout engine of
`shockwave_planner_v2` (`gui/timeline_view.py`, class `TimelineView`).

Python dictionaries holding grouped data are modelled as association lists
that record insertion order; Python `set`s as duplicate-free lists with
membership semantics; `datetime.strptime`, which raises `ValueError` on a
malformed date string, is modelled as an `Except`-valued parser, with
`none` standing for a date string that does not parse.
-/

namespace Shockwave

/-- A calendar date as produced by `datetime.strptime(s, '%Y-%m-%d')`. -/
structure Date where
  year : Int
  month : Nat
  day : Nat
deriving DecidableEq, Repr

/-- One launch record as returned by `db.get_launches_by_month` (the fields
the timeline view reads).  `launch_date = none` stands for a stored date
string on which `strptime` raises; `status_color`/`rocket_name` are `none`
when the corresponding dictionary key is missing or `NULL`. -/
structure Launch where
  location : String
  launch_pad : String
  launch_date : Option Date
  status_color : Option String
  launch_id : Nat
  rocket_name : Option String
deriving DecidableEq, Repr

/-- One site record as returned by `db.get_all_sites` (the fields the
timeline view reads).  `country`/`turnaround_days` are `none` when the key
is missing or `NULL`. -/
structure Site where
  location : String
  launch_pad : String
  site_id : Nat
  country : Option String
  turnaround_days : Option Int
deriving DecidableEq, Repr

abbrev SiteKey := String × String

/-- `(launch.get('location', ''), launch.get('launch_pad', ''))`
(timeline_view.py lines 94 and 100). -/
def launchKey (l : Launch) : SiteKey := (l.location, l.launch_pad)

/-- `(site['location'], site['launch_pad'])` (timeline_view.py line 117). -/
def siteKey (s : Site) : SiteKey := (s.location, s.launch_pad)

/-- `datetime.strptime(s, '%Y-%m-%d')`: returns the parsed date, or raises
(`.error`) when the string is malformed. -/
def strptime (d : Option Date) : Except Unit Date :=
  match d with
  | some dt => .ok dt
  | none => .error ()

/-- Gregorian leap-year rule, as used by `calendar.monthrange`. -/
def isLeapYear (y : Int) : Bool :=
  y % 4 == 0 && (y % 100 != 0 || y % 400 == 0)

/-- `calendar.monthrange(y, m)[1]`: the number of days of month `m` of year
`y`.  For `m` outside `1..12` the library raises; the engine only ever
calls it with a valid month, and we return the junk value `0` there. -/
def daysInMonth (y : Int) (m : Nat) : Nat :=
  match m with
  | 1 => 31
  | 2 => if isLeapYear y then 29 else 28
  | 3 => 31
  | 4 => 30
  | 5 => 31
  | 6 => 30
  | 7 => 31
  | 8 => 31
  | 9 => 30
  | 10 => 31
  | 11 => 30
  | 12 => 31
  | _ => 0

/-- The previous-month computation of timeline_view.py lines 82-86 (and
repeated at lines 243-247): decrement the month, rolling the year back at
the January boundary. -/
def prevYearMonth (y : Int) (m : Nat) : Int × Nat :=
  if m - 1 < 1 then (y - 1, 12) else (y, m - 1)

/-- `self.pad_turnaround_days = 7` (timeline_view.py line 25). -/
def pad_turnaround_days : Int := 7

/-- The mutable state of a `TimelineView` instance that the layout logic
reads and writes: the `(year, month)` cursor, the "show only sites with
launches" flag, the set of expanded countries and the initial-load flag. -/
structure EngineState where
  current_year : Int
  current_month : Nat
  show_only_active : Bool
  expanded_groups : List String
  initial_load : Bool
deriving DecidableEq, Repr

/-- The state installed by `TimelineView.__init__` (lines 19-28), with the
`datetime.now()` year and month supplied as parameters. -/
def initState (y : Int) (m : Nat) : EngineState :=
  { current_year := y
    current_month := m
    show_only_active := true
    expanded_groups := []
    initial_load := true }

/-- Association-list lookup, modelling Python dictionary indexing. -/
def alistLookup {α β : Type} [DecidableEq α] : List (α × β) → α → Option β
  | [], _ => none
  | (k', v) :: rest, k => if k' = k then some v else alistLookup rest k

/-- One step of the launch-grouping loop of timeline_view.py lines 93-97:
`if key not in d: d[key] = []` followed by `d[key].append(v)`. -/
def dictAppend (m : List (SiteKey × List Launch)) (k : SiteKey) (v : Launch) :
    List (SiteKey × List Launch) :=
  match m with
  | [] => [(k, [v])]
  | (k', vs) :: rest =>
    if k' = k then (k', vs ++ [v]) :: rest else (k', vs) :: dictAppend rest k v

/-- The `site_launches` dictionary of timeline_view.py lines 90-97 (and,
with the previous month's list, `site_prev_launches` of lines 99-103):
launches grouped by `(location, launch_pad)` key in insertion order. -/
def groupLaunches (ls : List Launch) : List (SiteKey × List Launch) :=
  ls.foldl (fun m l => dictAppend m (launchKey l) l) []

/-- `site_launches.get(site_key, [])` (timeline_view.py line 128). -/
def dictGet (ls : List Launch) (k : SiteKey) : List Launch :=
  (alistLookup (groupLaunches ls) k).getD []

/-- `site_key in site_launches` (timeline_view.py line 118). -/
def dictHasKey (ls : List Launch) (k : SiteKey) : Bool :=
  (alistLookup (groupLaunches ls) k).isSome

/-- The country-bucket computation of timeline_view.py lines 110-112:
`site.get('country', 'Other')`, then empty or falsy values are replaced by
`'Other'`. -/
def bucketOf (s : Site) : String :=
  match s.country with
  | none => "Other"
  | some c => if c = "" then "Other" else c

/-- The per-site dictionary appended at timeline_view.py lines 121-129.
The source never stores a `prev_month_launches` key in it, so the
`row_data.get('prev_month_launches')` at line 242 always yields `None`;
the field below records that possibility and is always built as `none`. -/
structure SiteRow where
  country : String
  location : String
  pad : String
  site_id : Nat
  turnaround_days : Int
  launches : List Launch
  prev_month_launches : Option (List Launch)
deriving DecidableEq, Repr

/-- Build the site dictionary of timeline_view.py lines 121-129 from a site
record and the current month's grouped launches. -/
def mkSiteRow (curLaunches : List Launch) (s : Site) : SiteRow :=
  { country := bucketOf s
    location := s.location
    pad := s.launch_pad
    site_id := s.site_id
    turnaround_days := s.turnaround_days.getD pad_turnaround_days
    launches := dictGet curLaunches (siteKey s)
    prev_month_launches := none }

abbrev CountryMap := List (String × List SiteRow)

/-- `if country not in country_sites_map: country_sites_map[country] = []`
(timeline_view.py lines 114-115): the key is created unconditionally, even
when the site is later filtered out. -/
def ensureKey (m : CountryMap) (c : String) : CountryMap :=
  match alistLookup m c with
  | some _ => m
  | none => m ++ [(c, [])]

/-- `country_sites_map[country].append(row)` (timeline_view.py line 121). -/
def appendRow (m : CountryMap) (c : String) (r : SiteRow) : CountryMap :=
  match m with
  | [] => [(c, [r])]
  | (c', rs) :: rest =>
    if c' = c then (c', rs ++ [r]) :: rest else (c', rs) :: appendRow rest c r

/-- One iteration of the site-partitioning loop of timeline_view.py lines
109-129: create the country bucket, then append the site's row dictionary
when it has launches or the active-only filter is off. -/
def addSiteStep (active : Bool) (curLaunches : List Launch) (m : CountryMap)
    (s : Site) : CountryMap :=
  let c := bucketOf s
  let m1 := ensureKey m c
  if dictHasKey curLaunches (siteKey s) || !active then
    appendRow m1 c (mkSiteRow curLaunches s)
  else m1

/-- The `country_sites_map` dictionary of timeline_view.py lines 107-129. -/
def countrySitesMap (active : Bool) (curLaunches : List Launch)
    (sites : List Site) : CountryMap :=
  sites.foldl (addSiteStep active curLaunches) []

/-- Lexicographic comparison of character lists by code point — the order
Python's `sorted` uses on strings. -/
def charListLe : List Char → List Char → Bool
  | [], _ => true
  | _ :: _, [] => false
  | a :: as, b :: bs =>
    if a.toNat < b.toNat then true
    else if b.toNat < a.toNat then false
    else charListLe as bs

/-- Lexicographic string comparison by code point. -/
def strLe (a b : String) : Bool := charListLe a.data b.data

/-- `sorted(country_sites_map.keys())` (timeline_view.py line 133).  The
dictionary's keys are pairwise distinct, so every stable lexicographic
sort produces the same sequence as Python's `sorted`; we use insertion
sort with code-point comparison. -/
def sortedCountries (m : CountryMap) : List String :=
  List.insertionSort (fun a b => strLe a b = true) (m.map Prod.fst)

/-- A row of the computed grid: a country group header (with its expanded
flag) or a pad row (timeline_view.py lines 132-149). -/
inductive Row
  | group (country : String) (expanded : Bool)
  | site (r : SiteRow)
deriving DecidableEq, Repr

/-- The country a row belongs to. -/
def Row.country : Row → String
  | .group c _ => c
  | .site r => r.country

/-- `self.expanded_groups.add(country)` (timeline_view.py line 139),
Python set semantics on a duplicate-free list. -/
def addSet (s : List String) (c : String) : List String :=
  if c ∈ s then s else s ++ [c]

/-- The row-building loop of timeline_view.py lines 132-149: iterate the
sorted countries, auto-expanding countries with launches on the initial
load, and emit a group header (plus the pad rows when expanded) for every
country with a non-empty, displayable site list.  Returns the rows and the
final expanded set. -/
def buildRows (active : Bool) (il : Bool) :
    List String → List String → CountryMap → List Row × List String
  | exp, [], _ => ([], exp)
  | exp, c :: rest, m =>
    let sites := (alistLookup m c).getD []
    let chl := sites.any (fun s => !s.launches.isEmpty)
    let exp1 := if il && chl then addSet exp c else exp
    let here :=
      if !sites.isEmpty && (chl || !active) then
        Row.group c (decide (c ∈ exp1)) ::
          (if c ∈ exp1 then sites.map Row.site else [])
      else []
    let rec_result := buildRows active il exp1 rest m
    (here ++ rec_result.1, rec_result.2)

/-- The classification of one day cell (timeline_view.py lines 214-267):
an event cell with its count, displayed colour and stored launch id, a
turnaround (recovery) cell, or an idle cell. -/
inductive Cell
  | event (count : Nat) (color : String) (launch_id : Nat)
  | recovery
  | idle
deriving DecidableEq, Repr

/-- The `day_launches` comprehension of timeline_view.py lines 218-219:
parse each launch date in order (a malformed one raises) and keep the
launches whose day-of-month equals `d`. -/
def dayLaunches : List Launch → Nat → Except Unit (List Launch)
  | [], _ => .ok []
  | l :: rest, d =>
    match strptime l.launch_date with
    | .error e => .error e
    | .ok dt =>
      match dayLaunches rest d with
      | .error e => .error e
      | .ok tail => .ok (if dt.day = d then l :: tail else tail)

/-- The current-month turnaround loop of timeline_view.py lines 235-239:
scan the pad's launches in order, stopping at the first one whose window
`launch_day < d <= launch_day + w` covers day `d`. -/
def turnaroundHit : List Launch → Nat → Int → Except Unit Bool
  | [], _, _ => .ok false
  | l :: rest, d, w =>
    match strptime l.launch_date with
    | .error e => .error e
    | .ok dt =>
      if (dt.day : Int) < (d : Int) ∧ (d : Int) ≤ (dt.day : Int) + w then .ok true
      else turnaroundHit rest d w

/-- The previous-month spill loop of timeline_view.py lines 251-260: for
each previous-month launch, `days_past_month_end = (day + w) - days_in_prev`
covers day `d` when it is positive and `d <= days_past_month_end`. -/
def spillHit : List Launch → Nat → Int → Nat → Except Unit Bool
  | [], _, _, _ => .ok false
  | l :: rest, d, w, dpm =>
    match strptime l.launch_date with
    | .error e => .error e
    | .ok dt =>
      if 0 < (dt.day : Int) + w - (dpm : Int) ∧
          (d : Int) ≤ (dt.day : Int) + w - (dpm : Int) then .ok true
      else spillHit rest d w dpm

/-- Classify one day cell of one pad row (timeline_view.py lines 214-267):
events first, then the current-month turnaround check, then — only when the
row carries a truthy `prev_month_launches` value, which the builder never
stores — the previous-month spill check, else idle. -/
def classifyCell (y : Int) (mo : Nat) (row : SiteRow) (d : Nat) :
    Except Unit Cell :=
  match dayLaunches row.launches d with
  | .error e => .error e
  | .ok (l :: rest) =>
    .ok (.event (l :: rest).length (l.status_color.getD "#FFFF00") l.launch_id)
  | .ok [] =>
    match turnaroundHit row.launches d row.turnaround_days with
    | .error e => .error e
    | .ok true => .ok .recovery
    | .ok false =>
      match row.prev_month_launches with
      | none => .ok .idle
      | some [] => .ok .idle
      | some (pl :: pls) =>
        match spillHit (pl :: pls) d row.turnaround_days
            (daysInMonth (prevYearMonth y mo).1 (prevYearMonth y mo).2) with
        | .error e => .error e
        | .ok true => .ok .recovery
        | .ok false => .ok .idle

/-- The rocket-name column of a pad row (timeline_view.py lines 204-209):
the sorted set of non-empty rocket names of the row's launches, truncated
to two entries. -/
def rocketNames (row : SiteRow) : List String :=
  (List.insertionSort (· ≤ ·)
    (row.launches.filterMap (fun l =>
      match l.rocket_name with
      | some n => if n = "" then none else some n
      | none => none)).dedup).take 2

/-- The rendered form of a pad row: the data the table cells of
timeline_view.py lines 190-267 display for it. -/
structure RenderedSite where
  location : String
  pad : String
  turnaround_days : Int
  rockets : List String
  cells : List Cell
deriving DecidableEq, Repr

/-- A rendered grid row: group header or pad row with its day cells. -/
inductive RenderedRow
  | group (country : String) (expanded : Bool)
  | site (r : RenderedSite)
deriving DecidableEq, Repr

/-- Sequential effectful map over `Except`, stopping at the first raise:
the semantics of a Python loop whose body may throw. -/
def exceptMapM {α β : Type} (f : α → Except Unit β) :
    List α → Except Unit (List β)
  | [] => .ok []
  | a :: rest =>
    match f a with
    | .error e => .error e
    | .ok b =>
      match exceptMapM f rest with
      | .error e => .error e
      | .ok bs => .ok (b :: bs)

/-- `range(1, days_in_month + 1)` (timeline_view.py line 214). -/
def days (dim : Nat) : List Nat := (List.range dim).map (· + 1)

/-- Render one row of the grid (timeline_view.py lines 172-267): group
headers are copied; for a pad row every day cell is classified in order,
any malformed launch date aborting the whole rendering. -/
def renderRow (y : Int) (mo : Nat) (dim : Nat) : Row → Except Unit RenderedRow
  | .group c e => .ok (.group c e)
  | .site r =>
    match exceptMapM (classifyCell y mo r) (days dim) with
    | .error e => .error e
    | .ok cells =>
      .ok (.site
        { location := r.location
          pad := r.pad
          turnaround_days := r.turnaround_days
          rockets := rocketNames r
          cells := cells })

/-- The row list and final expanded set computed by
`TimelineView.update_timeline` before the table is populated
(timeline_view.py lines 89-152). -/
def layoutRows (st : EngineState) (launches : List Launch)
    (sites : List Site) : List Row × List String :=
  let m := countrySitesMap st.show_only_active launches sites
  buildRows st.show_only_active st.initial_load st.expanded_groups
    (sortedCountries m) m

/-- `TimelineView.update_timeline` (timeline_view.py lines 74-270), as a
function of the engine state and the data the database calls return: the
current-month launches, the previous-month launches and the launch sites.
Returns the state after the call (the expanded set and initial-load flag
are updated at lines 139 and 152, before any cell is rendered) together
with the rendered grid, or `.error` when a malformed launch date makes
`strptime` raise during rendering. -/
def update_timeline (st : EngineState) (launches prev_month_launches : List Launch)
    (all_sites : List Site) : EngineState × Except Unit (List RenderedRow) :=
  let dim := daysInMonth st.current_year st.current_month
  -- Lines 99-103 group the previous month's launches into
  -- `site_prev_launches`, which no later line of the source reads.
  let _site_prev_launches := groupLaunches prev_month_launches
  let rows_exp := layoutRows st launches all_sites
  let st' := { st with expanded_groups := rows_exp.2, initial_load := false }
  (st', exceptMapM (renderRow st.current_year st.current_month dim) rows_exp.1)

/-- The cursor move of `TimelineView.previous_month` (lines 292-297),
before its re-layout call. -/
def previous_month (st : EngineState) : EngineState :=
  if st.current_month - 1 < 1 then
    { st with current_month := 12, current_year := st.current_year - 1 }
  else
    { st with current_month := st.current_month - 1 }

/-- The cursor move of `TimelineView.next_month` (lines 299-304), before
its re-layout call. -/
def next_month (st : EngineState) : EngineState :=
  if st.current_month + 1 > 12 then
    { st with current_month := 1, current_year := st.current_year + 1 }
  else
    { st with current_month := st.current_month + 1 }

/-- The flag update of `TimelineView.toggle_active_only` (lines 306-308),
before its re-layout call. -/
def toggle_active_only (st : EngineState) (checked : Bool) : EngineState :=
  { st with show_only_active := checked }

/-- The expanded-set toggle of `TimelineView.cell_clicked` on a group
header (lines 281-287), before its re-layout call. -/
def toggleGroup (st : EngineState) (c : String) : EngineState :=
  if c ∈ st.expanded_groups then
    { st with expanded_groups := st.expanded_groups.erase c }
  else
    { st with expanded_groups := addSet st.expanded_groups c }

/-- The value `TimelineView.cell_clicked` emits for a day cell (lines
289-290): the `launch_id` stored in an event cell's user data, nothing for
recovery or idle cells. -/
def cellClick : Cell → Option Nat
  | .event _ _ lid => some lid
  | .recovery => none
  | .idle => none

/-- One user-visible transition of a `TimelineView` instance: a plain
re-layout, month navigation, toggling the active-only filter or clicking a
cell (each of which triggers `update_timeline`, except clicking an event
cell, which only emits a signal). -/
inductive Step : EngineState → EngineState → Prop
  | update (st : EngineState) (l p : List Launch) (s : List Site) :
      Step st (update_timeline st l p s).1
  | prevMonth (st : EngineState) (l p : List Launch) (s : List Site) :
      Step st (update_timeline (previous_month st) l p s).1
  | nextMonth (st : EngineState) (l p : List Launch) (s : List Site) :
      Step st (update_timeline (next_month st) l p s).1
  | toggleActive (st : EngineState) (b : Bool) (l p : List Launch) (s : List Site) :
      Step st (update_timeline (toggle_active_only st b) l p s).1
  | clickGroup (st : EngineState) (c : String) (l p : List Launch) (s : List Site) :
      Step st (update_timeline (toggleGroup st c) l p s).1
  | clickLaunch (st : EngineState) : Step st st

/-- Whether a site's row is appended to its country bucket
(timeline_view.py line 120). -/
def includeSite (active : Bool) (L : List Launch) (s : Site) : Bool :=
  dictHasKey L (siteKey s) || !active

/-- `country_has_launches = any(s['launches'] for s in sites)`
(timeline_view.py line 135) for the bucket of country `c`. -/
def countryHasLaunches (m : CountryMap) (c : String) : Bool :=
  ((alistLookup m c).getD []).any (fun s => !s.launches.isEmpty)

/-- The sequence of group-header countries of a row list. -/
def groupCountries (rows : List Row) : List String :=
  rows.filterMap (fun r =>
    match r with
    | .group c _ => some c
    | .site _ => none)

/-- Whether a (parsed) launch's turnaround window covers day `d`
(`launch_day < col_day <= launch_day + site_turnaround`,
timeline_view.py line 237). -/
def hitsWindow (d : Nat) (w : Int) (l : Launch) : Bool :=
  match l.launch_date with
  | some dt => decide ((dt.day : Int) < (d : Int) ∧ (d : Int) ≤ (dt.day : Int) + w)
  | none => false

/-- A country qualifying for auto-expansion: it contains a pad with at
least one current-month event. -/
def qualifyingCountry (L : List Launch) (sites : List Site) (c : String) : Prop :=
  ∃ site ∈ sites, bucketOf site = c ∧ ∃ e ∈ L, launchKey e = siteKey site

/-! ### Concrete inputs used by counterexamples and witnesses -/

/-- Pad with a 10-day recovery window, for the month-boundary scenario. -/
def c1_site : Site :=
  { location := "Vandenberg", launch_pad := "SLC-4E", site_id := 1,
    country := some "USA", turnaround_days := some 10 }

/-- Previous-month launch on day 28 of January 2025 (a 31-day month). -/
def c1_prev_launch : Launch :=
  { location := "Vandenberg", launch_pad := "SLC-4E",
    launch_date := some ⟨2025, 1, 28⟩, status_color := some "#00FF00",
    launch_id := 5, rocket_name := some "Falcon 9" }

/-- Engine cursor on February 2025, filter off, country expanded. -/
def c1_state : EngineState :=
  { current_year := 2025, current_month := 2, show_only_active := false,
    expanded_groups := ["USA"], initial_load := false }

def c2_site : Site :=
  { location := "Cape", launch_pad := "LC-39A", site_id := 5,
    country := some "USA", turnaround_days := none }

/-- A current-month launch whose stored date string does not parse. -/
def c2_bad_launch : Launch :=
  { location := "Cape", launch_pad := "LC-39A", launch_date := none,
    status_color := none, launch_id := 31, rocket_name := none }

/-- Pad whose stored recovery window is the non-positive value 0. -/
def c3_site : Site :=
  { location := "Cape", launch_pad := "LC-39A", site_id := 4,
    country := some "USA", turnaround_days := some 0 }

def c3_launch : Launch :=
  { location := "Cape", launch_pad := "LC-39A",
    launch_date := some ⟨2025, 2, 5⟩, status_color := some "#00FF00",
    launch_id := 21, rocket_name := none }

def c4_launch : Launch :=
  { location := "Cape", launch_pad := "LC-39A",
    launch_date := some ⟨2025, 6, 10⟩, status_color := some "#00FF00",
    launch_id := 7, rocket_name := none }

def c4_row : SiteRow :=
  { country := "USA", location := "Cape", pad := "LC-39A", site_id := 1,
    turnaround_days := 5, launches := [c4_launch], prev_month_launches := none }

def c5_l1 : Launch :=
  { location := "Cape", launch_pad := "LC-39A",
    launch_date := some ⟨2025, 6, 10⟩, status_color := some "#FF0000",
    launch_id := 41, rocket_name := none }

def c5_l2 : Launch :=
  { location := "Cape", launch_pad := "LC-39A",
    launch_date := some ⟨2025, 6, 10⟩, status_color := some "#00FF00",
    launch_id := 42, rocket_name := none }

def c5_row : SiteRow :=
  { country := "USA", location := "Cape", pad := "LC-39A", site_id := 9,
    turnaround_days := 5, launches := [c5_l1, c5_l2], prev_month_launches := none }

def c9_site : Site :=
  { location := "Cape", launch_pad := "LC-40", site_id := 6,
    country := some "USA", turnaround_days := none }

def c10_site : Site :=
  { location := "Cape", launch_pad := "LC-39A", site_id := 3,
    country := some "USA", turnaround_days := none }

/-- A launch whose `(location, pad)` key matches no supplied site. -/
def c10_stray : Launch :=
  { location := "Nowhere", launch_pad := "Pad-X",
    launch_date := some ⟨2025, 6, 10⟩, status_color := none,
    launch_id := 11, rocket_name := none }

def c6_site : Site :=
  { location := "Cape", launch_pad := "LC-39B", site_id := 10,
    country := some "USA", turnaround_days := none }

def c6_launch : Launch :=
  { location := "Cape", launch_pad := "LC-39B",
    launch_date := some ⟨2025, 4, 2⟩, status_color := some "#00FF00",
    launch_id := 60, rocket_name := none }

/-- An engine state whose initial load is already over. -/
def c6_state2 : EngineState :=
  { current_year := 2025, current_month := 4, show_only_active := true,
    expanded_groups := ["USA"], initial_load := false }

def c7_launch : Launch :=
  { location := "Cape", launch_pad := "SLC-40",
    launch_date := some ⟨2025, 6, 15⟩, status_color := some "#00FF00",
    launch_id := 50, rocket_name := none }

def c7_site_usa : Site :=
  { location := "Cape", launch_pad := "SLC-40", site_id := 7,
    country := some "USA", turnaround_days := none }

/-- A pad in a country with no current-month events. -/
def c7_site_empty : Site :=
  { location := "Baikonur", launch_pad := "Pad-1", site_id := 8,
    country := some "Wonderland", turnaround_days := none }

instance {ε α : Type} [DecidableEq ε] [DecidableEq α] : DecidableEq (Except ε α) := fun
  | .error e, .error e' =>
    if h : e = e' then .isTrue (congrArg _ h)
    else .isFalse (fun hh => h (Except.error.inj hh))
  | .error _, .ok _ => .isFalse Except.noConfusion
  | .ok _, .error _ => .isFalse Except.noConfusion
  | .ok a, .ok b =>
    if h : a = b then .isTrue (congrArg _ h)
    else .isFalse (fun hh => h (Except.ok.inj hh))

/-! ### Characterisation of the launch dictionaries -/

theorem alistLookup_dictAppend (m : List (SiteKey × List Launch))
    (k k' : SiteKey) (v : Launch) :
    alistLookup (dictAppend m k v) k' =
      if k' = k then some ((alistLookup m k).getD [] ++ [v])
      else alistLookup m k' := by
  induction m with
  | nil =>
    by_cases h : k' = k
    · subst h; simp [dictAppend, alistLookup]
    · simp [dictAppend, alistLookup, h, Ne.symm h]
  | cons hd rest ih =>
    obtain ⟨k0, vs⟩ := hd
    simp only [dictAppend]
    by_cases h0 : k0 = k
    · subst h0
      simp only [if_pos rfl, alistLookup]
      by_cases h1 : k0 = k'
      · subst h1; simp [alistLookup]
      · simp [alistLookup, h1, Ne.symm h1]
    · simp only [if_neg h0, alistLookup]
      by_cases h1 : k0 = k'
      · subst h1
        simp [alistLookup, h0, Ne.symm h0]
      · simp [alistLookup, h1, ih]

theorem groupLaunches_fold (ls : List Launch)
    (m : List (SiteKey × List Launch)) (k : SiteKey) :
    alistLookup (ls.foldl (fun m l => dictAppend m (launchKey l) l) m) k =
      if (alistLookup m k).isSome || ls.any (fun l => decide (launchKey l = k)) then
        some ((alistLookup m k).getD [] ++
          ls.filter (fun l => decide (launchKey l = k)))
      else none := by
  induction ls generalizing m with
  | nil =>
    cases h : alistLookup m k <;> simp [h]
  | cons l rest ih =>
    rw [List.foldl_cons, ih, alistLookup_dictAppend]
    by_cases hk : k = launchKey l
    · subst hk
      simp [List.filter_cons, List.any_cons, List.append_assoc]
    · have hk' : ¬ (launchKey l = k) := Ne.symm hk
      simp [if_neg hk, List.filter_cons, List.any_cons, hk, hk']

theorem dictGet_eq (ls : List Launch) (k : SiteKey) :
    dictGet ls k = ls.filter (fun l => decide (launchKey l = k)) := by
  unfold dictGet groupLaunches
  rw [groupLaunches_fold]
  cases hb : ls.any (fun l => decide (launchKey l = k)) with
  | true => simp [alistLookup, hb]
  | false =>
    have hf : ls.filter (fun l => decide (launchKey l = k)) = [] := by
      rw [List.filter_eq_nil_iff]
      intro a ha
      have := (List.any_eq_false.mp hb) a ha
      simpa using this
    simp [alistLookup, hb, hf]

theorem dictHasKey_eq (ls : List Launch) (k : SiteKey) :
    dictHasKey ls k = ls.any (fun l => decide (launchKey l = k)) := by
  unfold dictHasKey groupLaunches
  rw [groupLaunches_fold]
  cases hb : ls.any (fun l => decide (launchKey l = k)) <;> simp [alistLookup, hb]

/-- The two dictionary views agree: a key is present in `site_launches`
exactly when its launch list is non-empty. -/
theorem dictHasKey_iff_dictGet_ne (ls : List Launch) (k : SiteKey) :
    dictHasKey ls k = true ↔ dictGet ls k ≠ [] := by
  rw [dictHasKey_eq, dictGet_eq]
  constructor
  · intro h
    simp only [List.any_eq_true] at h
    obtain ⟨l, hl, hlk⟩ := h
    intro hnil
    have := List.filter_eq_nil_iff.mp hnil l hl
    exact this hlk
  · intro h
    rcases hne : ls.filter (fun l => decide (launchKey l = k)) with _ | ⟨l, rest⟩
    · exact absurd hne h
    · have hl : l ∈ ls.filter (fun l => decide (launchKey l = k)) := by
        rw [hne]; exact List.mem_cons_self l rest
      have := List.mem_filter.mp hl
      exact List.any_eq_true.mpr ⟨l, this.1, this.2⟩

/-! ### Characterisation of the country map -/

theorem alistLookup_append {α β : Type} [DecidableEq α]
    (m₁ m₂ : List (α × β)) (k : α) :
    alistLookup (m₁ ++ m₂) k =
      match alistLookup m₁ k with
      | some v => some v
      | none => alistLookup m₂ k := by
  induction m₁ with
  | nil => simp [alistLookup]
  | cons hd rest ih =>
    obtain ⟨k0, v0⟩ := hd
    by_cases h : k0 = k <;> simp [alistLookup, h, ih]

theorem alistLookup_ensureKey (m : CountryMap) (c c' : String) :
    alistLookup (ensureKey m c) c' =
      if c' = c then some ((alistLookup m c).getD [])
      else alistLookup m c' := by
  unfold ensureKey
  cases h : alistLookup m c with
  | some v =>
    by_cases h1 : c' = c
    · subst h1; simp [h]
    · simp [h1]
  | none =>
    rw [alistLookup_append]
    by_cases h1 : c' = c
    · subst h1; simp [h, alistLookup]
    · cases h2 : alistLookup m c' <;> simp [h2, alistLookup, h1, Ne.symm h1]

theorem alistLookup_appendRow (m : CountryMap) (c c' : String) (r : SiteRow) :
    alistLookup (appendRow m c r) c' =
      if c' = c then some ((alistLookup m c).getD [] ++ [r])
      else alistLookup m c' := by
  induction m with
  | nil =>
    by_cases h : c' = c
    · subst h; simp [appendRow, alistLookup]
    · simp [appendRow, alistLookup, h, Ne.symm h]
  | cons hd rest ih =>
    obtain ⟨c0, rs⟩ := hd
    simp only [appendRow]
    by_cases h0 : c0 = c
    · subst h0
      simp only [if_pos rfl, alistLookup]
      by_cases h1 : c0 = c'
      · subst h1; simp [alistLookup]
      · simp [alistLookup, h1, Ne.symm h1]
    · simp only [if_neg h0, alistLookup]
      by_cases h1 : c0 = c'
      · subst h1
        simp [alistLookup, h0, Ne.symm h0]
      · simp [alistLookup, h1, ih]


theorem alistLookup_addSiteStep (active : Bool) (L : List Launch)
    (m : CountryMap) (s : Site) (c : String) :
    alistLookup (addSiteStep active L m s) c =
      if c = bucketOf s then
        some ((alistLookup m (bucketOf s)).getD [] ++
          (if includeSite active L s then [mkSiteRow L s] else []))
      else alistLookup m c := by
  unfold addSiteStep includeSite
  cases h : dictHasKey L (siteKey s) || !active with
  | true =>
    simp only [h, if_true]
    rw [alistLookup_appendRow, alistLookup_ensureKey]
    by_cases h1 : c = bucketOf s
    · simp [h1]
    · rw [if_neg h1, if_neg h1, alistLookup_ensureKey, if_neg h1]
  | false =>
    simp only [h, if_false, Bool.false_eq_true]
    rw [alistLookup_ensureKey]
    simp

theorem countryMap_fold (sites : List Site) (active : Bool) (L : List Launch)
    (m : CountryMap) (c : String) :
    alistLookup (sites.foldl (addSiteStep active L) m) c =
      if (alistLookup m c).isSome || sites.any (fun s => decide (bucketOf s = c)) then
        some ((alistLookup m c).getD [] ++
          ((sites.filter (fun s =>
              decide (bucketOf s = c) && includeSite active L s)).map (mkSiteRow L)))
      else none := by
  induction sites generalizing m with
  | nil =>
    cases h : alistLookup m c <;> simp [h]
  | cons s rest ih =>
    rw [List.foldl_cons, ih, alistLookup_addSiteStep]
    by_cases hc : c = bucketOf s
    · subst hc
      cases hi : includeSite active L s <;>
        simp [List.filter_cons, List.any_cons, List.append_assoc, hi]
    · have hc' : ¬ (bucketOf s = c) := Ne.symm hc
      simp [if_neg hc, List.filter_cons, List.any_cons, hc, hc']

theorem countrySitesMap_lookup (active : Bool) (L : List Launch)
    (sites : List Site) (c : String) :
    alistLookup (countrySitesMap active L sites) c =
      if sites.any (fun s => decide (bucketOf s = c)) then
        some ((sites.filter (fun s =>
          decide (bucketOf s = c) && includeSite active L s)).map (mkSiteRow L))
      else none := by
  unfold countrySitesMap
  rw [countryMap_fold]
  cases hb : sites.any (fun s => decide (bucketOf s = c)) <;> simp [alistLookup, hb]

theorem mem_keys_iff {α β : Type} [DecidableEq α] (m : List (α × β)) (k : α) :
    k ∈ m.map Prod.fst ↔ (alistLookup m k).isSome := by
  induction m with
  | nil => simp [alistLookup]
  | cons hd rest ih =>
    obtain ⟨k0, v0⟩ := hd
    by_cases h : k0 = k
    · subst h; simp [alistLookup]
    · simp [alistLookup, h, Ne.symm h, ih]

theorem mem_sortedCountries_iff (m : CountryMap) (c : String) :
    c ∈ sortedCountries m ↔ (alistLookup m c).isSome := by
  rw [← mem_keys_iff]
  unfold sortedCountries
  exact (List.perm_insertionSort _ _).mem_iff

theorem charListLe_trans (as bs cs : List Char)
    (h1 : charListLe as bs = true) (h2 : charListLe bs cs = true) :
    charListLe as cs = true := by
  induction as generalizing bs cs with
  | nil => simp [charListLe]
  | cons a as ih =>
    cases bs with
    | nil => simp [charListLe] at h1
    | cons b bs =>
      cases cs with
      | nil => simp [charListLe] at h2
      | cons c cs =>
        simp only [charListLe] at h1 h2 ⊢
        by_cases hab : a.toNat < b.toNat
        · by_cases hbc : b.toNat < c.toNat
          · rw [if_pos (Nat.lt_trans hab hbc)]
          · rw [if_neg hbc] at h2
            by_cases hcb : c.toNat < b.toNat
            · rw [if_pos hcb] at h2
              simp at h2
            · rw [if_pos (show a.toNat < c.toNat by omega)]
        · rw [if_neg hab] at h1
          by_cases hba : b.toNat < a.toNat
          · rw [if_pos hba] at h1
            simp at h1
          · rw [if_neg hba] at h1
            by_cases hbc : b.toNat < c.toNat
            · rw [if_pos (show a.toNat < c.toNat by omega)]
            · rw [if_neg hbc] at h2
              by_cases hcb : c.toNat < b.toNat
              · rw [if_pos hcb] at h2
                simp at h2
              · rw [if_neg hcb] at h2
                rw [if_neg (show ¬ a.toNat < c.toNat by omega),
                  if_neg (show ¬ c.toNat < a.toNat by omega)]
                exact ih bs cs h1 h2

theorem charListLe_total (as bs : List Char) :
    charListLe as bs = true ∨ charListLe bs as = true := by
  induction as generalizing bs with
  | nil => exact Or.inl (by simp [charListLe])
  | cons a as ih =>
    cases bs with
    | nil => exact Or.inr (by simp [charListLe])
    | cons b bs =>
      simp only [charListLe]
      by_cases hab : a.toNat < b.toNat
      · exact Or.inl (by rw [if_pos hab])
      · by_cases hba : b.toNat < a.toNat
        · exact Or.inr (by rw [if_pos hba])
        · rw [if_neg hab, if_neg hba, if_neg hba, if_neg hab]
          exact ih bs

theorem sortedCountries_sorted (m : CountryMap) :
    List.Sorted (fun a b => strLe a b = true) (sortedCountries m) :=
  @List.sorted_insertionSort String (fun a b => strLe a b = true)
    (fun _ _ => inferInstance)
    ⟨fun a b => charListLe_total a.data b.data⟩
    ⟨fun a b c h1 h2 => charListLe_trans a.data b.data c.data h1 h2⟩
    (m.map Prod.fst)

/-! ### Properties of the row-building loop -/


theorem mem_addSet (e : List String) (c x : String) :
    x ∈ addSet e c ↔ x ∈ e ∨ x = c := by
  unfold addSet
  by_cases h : c ∈ e
  · simp only [if_pos h]
    exact ⟨Or.inl, fun hx => hx.elim id (fun hx => hx ▸ h)⟩
  · simp [h]

theorem nodup_addSet (e : List String) (c : String) (h : e.Nodup) :
    (addSet e c).Nodup := by
  unfold addSet
  by_cases hc : c ∈ e
  · simpa [hc] using h
  · simp [hc, List.nodup_append, h]

theorem addSet_extends (e : List String) (c : String) : e <+: addSet e c := by
  unfold addSet
  by_cases hc : c ∈ e
  · simp [hc]
  · simp only [if_neg hc]
    exact ⟨[c], rfl⟩

theorem buildRows_exp_grows (active il : Bool) (cs : List String)
    (exp : List String) (m : CountryMap) :
    exp <+: (buildRows active il exp cs m).2 := by
  induction cs generalizing exp with
  | nil => simp [buildRows]
  | cons c rest ih =>
    simp only [buildRows]
    by_cases hc : (il && ((alistLookup m c).getD []).any (fun s => !s.launches.isEmpty)) = true
    · rw [if_pos hc]
      exact (addSet_extends exp c).trans (ih (addSet exp c))
    · rw [if_neg hc]
      exact ih exp

theorem buildRows_exp_mem (active il : Bool) (cs : List String)
    (exp : List String) (m : CountryMap) (x : String) :
    x ∈ (buildRows active il exp cs m).2 ↔
      x ∈ exp ∨ (il = true ∧ x ∈ cs ∧ countryHasLaunches m x = true) := by
  induction cs generalizing exp with
  | nil => simp [buildRows]
  | cons c rest ih =>
    simp only [buildRows]
    rw [ih]
    constructor
    · rintro (hx | ⟨hil, hr, hA⟩)
      · by_cases hc : (il && ((alistLookup m c).getD []).any
            (fun s => !s.launches.isEmpty)) = true
        · rw [if_pos hc] at hx
          rcases (mem_addSet exp c x).mp hx with hx | rfl
          · exact Or.inl hx
          · have hc' := hc
            simp only [Bool.and_eq_true] at hc'
            obtain ⟨hil, hX⟩ := hc'
            exact Or.inr ⟨hil, List.mem_cons_self x rest,
              by simpa [countryHasLaunches] using hX⟩
        · rw [if_neg hc] at hx
          exact Or.inl hx
      · exact Or.inr ⟨hil, List.mem_cons_of_mem c hr, hA⟩
    · rintro (hx | ⟨hil, hr, hA⟩)
      · refine Or.inl ?_
        by_cases hc : (il && ((alistLookup m c).getD []).any
            (fun s => !s.launches.isEmpty)) = true
        · rw [if_pos hc]
          exact (mem_addSet exp c x).mpr (Or.inl hx)
        · rw [if_neg hc]
          exact hx
      · rcases List.mem_cons.mp hr with rfl | hr
        · refine Or.inl ?_
          have hc : (il && ((alistLookup m x).getD []).any
              (fun s => !s.launches.isEmpty)) = true := by
            rw [hil]
            simpa [countryHasLaunches] using hA
          rw [if_pos hc]
          exact (mem_addSet exp x x).mpr (Or.inr rfl)
        · exact Or.inr ⟨hil, hr, hA⟩

theorem buildRows_exp_nodup (active il : Bool) (cs : List String)
    (exp : List String) (m : CountryMap) (h : exp.Nodup) :
    (buildRows active il exp cs m).2.Nodup := by
  induction cs generalizing exp with
  | nil => simpa [buildRows] using h
  | cons c rest ih =>
    simp only [buildRows]
    by_cases hc : (il && ((alistLookup m c).getD []).any (fun s => !s.launches.isEmpty)) = true
    · rw [if_pos hc]
      exact ih _ (nodup_addSet _ _ h)
    · rw [if_neg hc]
      exact ih _ h

theorem buildRows_exp_false (active : Bool) (cs : List String)
    (exp : List String) (m : CountryMap) :
    (buildRows active false exp cs m).2 = exp := by
  induction cs generalizing exp with
  | nil => simp [buildRows]
  | cons c rest ih =>
    simp only [buildRows]
    rw [if_neg (by simp)]
    exact ih exp

theorem buildRows_rows_of_exp_fixed (active il : Bool) (cs : List String)
    (exp : List String) (m : CountryMap)
    (h : (buildRows active il exp cs m).2 = exp) :
    (buildRows active il exp cs m).1 = (buildRows active false exp cs m).1 := by
  induction cs generalizing exp with
  | nil => simp [buildRows]
  | cons c rest ih =>
    simp only [buildRows] at h ⊢
    simp only [Bool.false_and, Bool.false_eq_true, if_false]
    by_cases hc : (il && ((alistLookup m c).getD []).any (fun s => !s.launches.isEmpty)) = true
    · rw [if_pos hc] at h ⊢
      have hpre1 : exp <+: addSet exp c := addSet_extends exp c
      have hpre2 : addSet exp c <+: (buildRows active il (addSet exp c) rest m).2 :=
        buildRows_exp_grows active il rest (addSet exp c) m
      rw [h] at hpre2
      have heq : addSet exp c = exp :=
        hpre2.eq_of_length (Nat.le_antisymm hpre2.length_le hpre1.length_le)
      rw [heq] at h ⊢
      rw [ih exp h]
    · rw [if_neg hc] at h ⊢
      rw [ih exp h]


theorem groupCountries_buildRows_sublist (active il : Bool) (cs : List String)
    (exp : List String) (m : CountryMap) :
    List.Sublist (groupCountries (buildRows active il exp cs m).1) cs := by
  induction cs generalizing exp with
  | nil => simp [buildRows, groupCountries]
  | cons c rest ih =>
    simp only [buildRows]
    unfold groupCountries
    rw [List.filterMap_append]
    have hsite : ∀ (l : List SiteRow),
        (l.map Row.site).filterMap (fun r =>
          match r with
          | Row.group c _ => some c
          | Row.site _ => none) = [] := by
      intro l
      induction l with
      | nil => rfl
      | cons a t iht => simp [iht]
    by_cases h2 : (!((alistLookup m c).getD []).isEmpty &&
        (((alistLookup m c).getD []).any (fun s => !s.launches.isEmpty) || !active)) = true
    · rw [if_pos h2]
      by_cases h3 : c ∈ (if (il && ((alistLookup m c).getD []).any
          (fun s => !s.launches.isEmpty)) = true then addSet exp c else exp)
      · rw [if_pos h3]
        simpa [hsite] using List.Sublist.cons₂ c (ih _)
      · rw [if_neg h3]
        simpa [hsite] using List.Sublist.cons₂ c (ih _)
    · rw [if_neg h2]
      simpa using List.Sublist.cons c (ih _)

theorem buildRows_row_source (active il : Bool) (cs : List String)
    (exp : List String) (m : CountryMap) (r : Row)
    (hr : r ∈ (buildRows active il exp cs m).1) :
    ∃ c' ∈ cs, ((alistLookup m c').getD []) ≠ [] ∧
      ((∃ b, r = .group c' b) ∨
       (∃ sr, r = .site sr ∧ sr ∈ (alistLookup m c').getD [])) := by
  induction cs generalizing exp with
  | nil => simp [buildRows] at hr
  | cons c rest ih =>
    simp only [buildRows] at hr
    rw [List.mem_append] at hr
    rcases hr with hr | hr
    · by_cases h2 : (!((alistLookup m c).getD []).isEmpty &&
          (((alistLookup m c).getD []).any (fun s => !s.launches.isEmpty) || !active)) = true
      · rw [if_pos h2] at hr
        have hne : ((alistLookup m c).getD []) ≠ [] := by
          have h2' := h2
          simp only [Bool.and_eq_true] at h2'
          intro hnil
          rw [hnil] at h2'
          simp at h2' 
        rcases List.mem_cons.mp hr with rfl | hr
        · exact ⟨c, List.mem_cons_self c rest, hne, Or.inl ⟨_, rfl⟩⟩
        · by_cases h3 : c ∈ (if (il && ((alistLookup m c).getD []).any
              (fun s => !s.launches.isEmpty)) = true then addSet exp c else exp)
          · rw [if_pos h3] at hr
            rcases List.mem_map.mp hr with ⟨sr, hsr, rfl⟩
            exact ⟨c, List.mem_cons_self c rest, hne, Or.inr ⟨sr, rfl, hsr⟩⟩
          · rw [if_neg h3] at hr
            simp at hr
      · rw [if_neg h2] at hr
        simp at hr
    · obtain ⟨c', hc', hne, hcase⟩ := ih _ hr
      exact ⟨c', List.mem_cons_of_mem c hc', hne, hcase⟩

/-! ### Cell-classification lemmas -/


theorem dayLaunches_ok (ls : List Launch) (d : Nat)
    (hparse : ∀ l ∈ ls, l.launch_date ≠ none) :
    dayLaunches ls d =
      .ok (ls.filter (fun l => decide (l.launch_date.map Date.day = some d))) := by
  induction ls with
  | nil => simp [dayLaunches]
  | cons l rest ih =>
    obtain ⟨dt, hdt⟩ : ∃ dt, l.launch_date = some dt := by
      cases h : l.launch_date with
      | none => exact absurd h (hparse l (List.mem_cons_self l rest))
      | some dt => exact ⟨dt, rfl⟩
    simp only [dayLaunches, hdt, strptime]
    rw [ih (fun x hx => hparse x (List.mem_cons_of_mem _ hx))]
    by_cases hday : dt.day = d
    · simp [List.filter_cons, hdt, hday]
    · simp [List.filter_cons, hdt, hday]

theorem dayLaunches_error (ls : List Launch) (d : Nat) (l : Launch)
    (hl : l ∈ ls) (hnone : l.launch_date = none) :
    dayLaunches ls d = .error () := by
  induction ls with
  | nil => simp at hl
  | cons a rest ih =>
    rcases List.mem_cons.mp hl with rfl | hl
    · simp [dayLaunches, hnone, strptime]
    · cases h : a.launch_date with
      | none => simp [dayLaunches, h, strptime]
      | some dt => simp [dayLaunches, h, strptime, ih hl]

theorem turnaroundHit_ok (ls : List Launch) (d : Nat) (w : Int)
    (hparse : ∀ l ∈ ls, l.launch_date ≠ none) :
    turnaroundHit ls d w = .ok (ls.any (hitsWindow d w)) := by
  induction ls with
  | nil => simp [turnaroundHit]
  | cons l rest ih =>
    obtain ⟨dt, hdt⟩ : ∃ dt, l.launch_date = some dt := by
      cases h : l.launch_date with
      | none => exact absurd h (hparse l (List.mem_cons_self l rest))
      | some dt => exact ⟨dt, rfl⟩
    simp only [turnaroundHit, hdt, strptime]
    by_cases hcond : (dt.day : Int) < (d : Int) ∧ (d : Int) ≤ (dt.day : Int) + w
    · have htrue : hitsWindow d w l = true := by
        unfold hitsWindow
        rw [hdt]
        exact decide_eq_true hcond
      simp [List.any_cons, htrue, hcond]
    · have hfalse : hitsWindow d w l = false := by
        unfold hitsWindow
        rw [hdt]
        exact decide_eq_false hcond
      rw [if_neg hcond, ih (fun x hx => hparse x (List.mem_cons_of_mem _ hx))]
      simp [List.any_cons, hfalse]

theorem classifyCell_event (y : Int) (mo : Nat) (row : SiteRow) (d : Nat)
    (hparse : ∀ l ∈ row.launches, l.launch_date ≠ none)
    (l : Launch) (rest' : List Launch)
    (hfl : row.launches.filter
      (fun l => decide (l.launch_date.map Date.day = some d)) = l :: rest') :
    classifyCell y mo row d =
      .ok (.event (l :: rest').length (l.status_color.getD "#FFFF00") l.launch_id) := by
  have h1 : dayLaunches row.launches d = .ok (l :: rest') := by
    rw [dayLaunches_ok _ _ hparse, hfl]
  unfold classifyCell
  rw [h1]

theorem classifyCell_recovery (y : Int) (mo : Nat) (row : SiteRow) (d : Nat)
    (hparse : ∀ l ∈ row.launches, l.launch_date ≠ none)
    (hnoevent : row.launches.filter
      (fun l => decide (l.launch_date.map Date.day = some d)) = [])
    (hhit : row.launches.any (hitsWindow d row.turnaround_days) = true) :
    classifyCell y mo row d = .ok .recovery := by
  have h1 : dayLaunches row.launches d = .ok [] := by
    rw [dayLaunches_ok _ _ hparse, hnoevent]
  have h2 : turnaroundHit row.launches d row.turnaround_days = .ok true := by
    rw [turnaroundHit_ok _ _ _ hparse, hhit]
  unfold classifyCell
  rw [h1, h2]

theorem classifyCell_error (y : Int) (mo : Nat) (row : SiteRow) (d : Nat)
    (l : Launch) (hl : l ∈ row.launches) (hnone : l.launch_date = none) :
    classifyCell y mo row d = .error () := by
  have h1 : dayLaunches row.launches d = .error () :=
    dayLaunches_error _ _ _ hl hnone
  unfold classifyCell
  rw [h1]

/-! ### Rendering lemmas -/

theorem exceptMapM_error {α β : Type} (f : α → Except Unit β) (as : List α)
    (a : α) (ha : a ∈ as) (herr : f a = .error ()) :
    exceptMapM f as = .error () := by
  induction as with
  | nil => simp at ha
  | cons x rest ih =>
    rcases List.mem_cons.mp ha with rfl | ha
    · simp [exceptMapM, herr]
    · cases hfx : f x with
      | error e => cases e; simp [exceptMapM, hfx]
      | ok b => simp [exceptMapM, hfx, ih ha]

theorem daysInMonth_ge (y : Int) (mo : Nat) (h1 : 1 ≤ mo) (h2 : mo ≤ 12) :
    28 ≤ daysInMonth y mo := by
  interval_cases mo <;> cases hly : isLeapYear y <;> simp [daysInMonth, hly]

theorem mem_days_one (dim : Nat) (h : 1 ≤ dim) : 1 ∈ days dim := by
  unfold days
  rw [List.mem_map]
  exact ⟨0, by simpa using h, rfl⟩

theorem renderRow_error (y : Int) (mo : Nat) (dim : Nat) (r : SiteRow)
    (hdim : 1 ≤ dim) (l : Launch) (hl : l ∈ r.launches)
    (hnone : l.launch_date = none) :
    renderRow y mo dim (.site r) = .error () := by
  have hcell : classifyCell y mo r 1 = .error () :=
    classifyCell_error y mo r 1 l hl hnone
  have := exceptMapM_error (classifyCell y mo r) (days dim) 1
    (mem_days_one dim hdim) hcell
  simp only [renderRow]
  rw [this]

theorem update_timeline_fst (st : EngineState) (l p : List Launch) (s : List Site) :
    (update_timeline st l p s).1 =
      { st with expanded_groups := (layoutRows st l s).2, initial_load := false } := rfl

theorem update_timeline_snd (st : EngineState) (l p : List Launch) (s : List Site) :
    (update_timeline st l p s).2 =
      exceptMapM (renderRow st.current_year st.current_month
        (daysInMonth st.current_year st.current_month)) (layoutRows st l s).1 := rfl

/-! ### Claims -/

/-- Claim C1 (code bug): the spec requires previous-month recovery windows
to spill into the current month, and the source fetches and groups the
previous month's launches for exactly that purpose (lines 81-103), but the
row dictionaries never receive a `prev_month_launches` key, so the spill
branch at lines 242-260 is dead.  Concretely, with a 10-day window and a
previous-month (31-day January) launch on day 28, days 1-7 of February
2025 are rendered IDLE instead of RECOVERY; more generally the whole
layout result is independent of the previous-month launch list. -/
theorem c1_prev_month_spill_never_fires :
    ((update_timeline c1_state [] [c1_prev_launch] [c1_site]).2 =
      .ok [.group "USA" true,
           .site { location := "Vandenberg", pad := "SLC-4E", turnaround_days := 10,
                   rockets := [], cells := List.replicate 28 .idle }]) ∧
    (∀ (st : EngineState) (l p p' : List Launch) (s : List Site),
      update_timeline st l p s = update_timeline st l p' s) :=
  ⟨by decide, fun _ _ _ _ _ => rfl⟩

/-- Claim C2 counterexample: a single malformed event date does not get
skipped; it makes the whole layout call raise, so the call produces no
grid at all (the claim is false at this input). -/
theorem c2_malformed_date_blanks_grid :
    (update_timeline (initState 2025 3) [c2_bad_launch] [] [c2_site]).2 = .error () := by
  decide

/-- Claim C2 (amended): a malformed event date is not skipped — the
`strptime` error propagates, and any displayed pad row containing such an
event aborts the whole layout call with an error. -/
theorem c2_amended_malformed_date_aborts (st : EngineState) (L p : List Launch)
    (sites : List Site) (h1 : 1 ≤ st.current_month) (h2 : st.current_month ≤ 12)
    (sr : SiteRow) (hrow : Row.site sr ∈ (layoutRows st L sites).1)
    (l : Launch) (hl : l ∈ sr.launches) (hnone : l.launch_date = none) :
    (update_timeline st L p sites).2 = .error () := by
  rw [update_timeline_snd]
  have hdim : 1 ≤ daysInMonth st.current_year st.current_month :=
    le_trans (by norm_num) (daysInMonth_ge st.current_year st.current_month h1 h2)
  exact exceptMapM_error _ _ _ hrow
    (renderRow_error st.current_year st.current_month _ sr hdim l hl hnone)

/-- Witness for the amended C2 theorem at a concrete malformed record. -/
theorem c2_amended_malformed_date_aborts_witness :
    (update_timeline (initState 2025 5) [c2_bad_launch] [] [c2_site]).2 = .error () :=
  c2_amended_malformed_date_aborts (initState 2025 5) [c2_bad_launch] [] [c2_site]
    (by decide) (by decide) (mkSiteRow [c2_bad_launch] c2_site) (by decide)
    c2_bad_launch (by decide) rfl

/-- Claim C3 counterexample: a pad with the non-positive stored recovery
window 0 keeps that value — the row displays a 0-day turnaround and the
day after its event is IDLE, not the RECOVERY that the claimed 7-day
default would give. -/
theorem c3_nonpositive_window_used_as_is :
    (update_timeline (initState 2025 2) [c3_launch] [] [c3_site]).2 =
      .ok [.group "USA" true,
           .site { location := "Cape", pad := "LC-39A", turnaround_days := 0,
                   rockets := [],
                   cells := List.replicate 4 .idle ++
                     .event 1 "#00FF00" 21 :: List.replicate 23 .idle }] := by
  decide

/-- Claim C3 (amended): only a missing recovery-window value falls back to
the 7-day default (replacing a missing window by an explicit 7 leaves the
whole layout unchanged); a present value — non-positive included — is used
exactly as supplied. -/
theorem c3_amended_default_only_when_missing :
    (∀ (st : EngineState) (l p : List Launch) (sites : List Site),
      update_timeline st l p (sites.map (fun s =>
        { s with turnaround_days := some (s.turnaround_days.getD 7) })) =
      update_timeline st l p sites) ∧
    (∀ (L : List Launch) (s : Site) (w : Int),
      (mkSiteRow L { s with turnaround_days := some w }).turnaround_days = w) := by
  constructor
  · intro st l p sites
    have hstep : ∀ (m : CountryMap) (s : Site),
        addSiteStep st.show_only_active l m
          { s with turnaround_days := some (s.turnaround_days.getD 7) } =
        addSiteStep st.show_only_active l m s := by
      intro m s
      unfold addSiteStep mkSiteRow bucketOf siteKey
      cases s.turnaround_days <;> rfl
    have hmap : countrySitesMap st.show_only_active l (sites.map (fun s =>
        { s with turnaround_days := some (s.turnaround_days.getD 7) })) =
        countrySitesMap st.show_only_active l sites := by
      unfold countrySitesMap
      rw [List.foldl_map]
      exact List.foldl_ext _ _ _ (fun m s _ => hstep m s)
    unfold update_timeline layoutRows
    rw [hmap]
  · intro L s w
    rfl

/-- Claim C8: month navigation is cyclic — "previous" in January yields
December of the previous year, "next" in December yields January of the
next year, and otherwise only the month moves by one. -/
theorem c8_month_navigation (st : EngineState) :
    (st.current_month = 1 →
      previous_month st =
        { st with current_month := 12, current_year := st.current_year - 1 }) ∧
    (st.current_month = 12 →
      next_month st =
        { st with current_month := 1, current_year := st.current_year + 1 }) ∧
    (2 ≤ st.current_month →
      previous_month st = { st with current_month := st.current_month - 1 }) ∧
    (st.current_month ≤ 11 →
      next_month st = { st with current_month := st.current_month + 1 }) := by
  refine ⟨fun h => ?_, fun h => ?_, fun h => ?_, fun h => ?_⟩
  · unfold previous_month
    rw [h]
    simp
  · unfold next_month
    rw [h]
    simp
  · unfold previous_month
    rw [if_neg (by omega)]
  · unfold next_month
    rw [if_neg (by omega)]

/-- Witness for the month-navigation theorem at the four concrete cases. -/
theorem c8_month_navigation_witness :
    previous_month (initState 2024 1) =
      { current_year := 2023, current_month := 12, show_only_active := true,
        expanded_groups := [], initial_load := true } ∧
    next_month (initState 2024 12) =
      { current_year := 2025, current_month := 1, show_only_active := true,
        expanded_groups := [], initial_load := true } ∧
    previous_month (initState 2024 5) =
      { current_year := 2024, current_month := 4, show_only_active := true,
        expanded_groups := [], initial_load := true } ∧
    next_month (initState 2024 5) =
      { current_year := 2024, current_month := 6, show_only_active := true,
        expanded_groups := [], initial_load := true } :=
  ⟨by have := (c8_month_navigation (initState 2024 1)).1 rfl
      simpa [initState] using this,
   by have := (c8_month_navigation (initState 2024 12)).2.1 rfl
      simpa [initState] using this,
   by have := (c8_month_navigation (initState 2024 5)).2.2.1 (by norm_num [initState])
      simpa [initState] using this,
   by have := (c8_month_navigation (initState 2024 5)).2.2.2 (by norm_num [initState])
      simpa [initState] using this⟩

/-- Claim C10: a current-month event whose `(location, pad)` key matches
no supplied pad contributes nothing — removing it from the event list
leaves the whole layout call (state and rendered grid) unchanged. -/
theorem c10_unmatched_events_ignored (st : EngineState) (l1 l2 p : List Launch)
    (sites : List Site) (e : Launch)
    (he : ∀ s ∈ sites, siteKey s ≠ launchKey e) :
    update_timeline st (l1 ++ e :: l2) p sites =
      update_timeline st (l1 ++ l2) p sites := by
  have hget : ∀ s ∈ sites,
      dictGet (l1 ++ e :: l2) (siteKey s) = dictGet (l1 ++ l2) (siteKey s) := by
    intro s hs
    rw [dictGet_eq, dictGet_eq, List.filter_append, List.filter_append,
      List.filter_cons]
    rw [if_neg (by simpa using fun h => (he s hs) h.symm)]
  have hhas : ∀ s ∈ sites,
      dictHasKey (l1 ++ e :: l2) (siteKey s) = dictHasKey (l1 ++ l2) (siteKey s) := by
    intro s hs
    rw [dictHasKey_eq, dictHasKey_eq, List.any_append, List.any_append,
      List.any_cons]
    have : decide (launchKey e = siteKey s) = false :=
      decide_eq_false (fun h => (he s hs) h.symm)
    rw [this]
    simp
  have hstep : ∀ (m : CountryMap), ∀ s ∈ sites,
      addSiteStep st.show_only_active (l1 ++ e :: l2) m s =
      addSiteStep st.show_only_active (l1 ++ l2) m s := by
    intro m s hs
    unfold addSiteStep mkSiteRow
    rw [hget s hs, hhas s hs]
  have hmap : countrySitesMap st.show_only_active (l1 ++ e :: l2) sites =
      countrySitesMap st.show_only_active (l1 ++ l2) sites := by
    unfold countrySitesMap
    exact List.foldl_ext _ _ _ hstep
  unfold update_timeline layoutRows
  rw [hmap]

/-- Witness for C10 at a concrete stray event. -/
theorem c10_unmatched_events_ignored_witness :
    update_timeline (initState 2025 6) ([] ++ c10_stray :: []) [] [c10_site] =
      update_timeline (initState 2025 6) ([] ++ []) [] [c10_site] :=
  c10_unmatched_events_ignored (initState 2025 6) [] [] [] [c10_site] c10_stray
    (by decide)

/-- Claim C4: for a pad row with recovery window `w` and a (parseable)
current-month event on day `e`, every day `d` with `e < d ≤ e + w` that
has no event of its own is classified RECOVERY, while the event's own day
is classified EVENT — never RECOVERY on account of its own event. -/
theorem c4_recovery_window (y : Int) (mo : Nat) (row : SiteRow) (d : Nat)
    (hparse : ∀ l ∈ row.launches, l.launch_date ≠ none)
    (l : Launch) (dt : Date) (hl : l ∈ row.launches)
    (hdt : l.launch_date = some dt) :
    (((dt.day : Int) < (d : Int) ∧
        (d : Int) ≤ (dt.day : Int) + row.turnaround_days ∧
        (∀ l' ∈ row.launches, l'.launch_date.map Date.day ≠ some d)) →
      classifyCell y mo row d = .ok .recovery) ∧
    (∃ cnt col lid, classifyCell y mo row dt.day = .ok (.event cnt col lid)) := by
  constructor
  · rintro ⟨hlt, hle, hnoev⟩
    apply classifyCell_recovery y mo row d hparse
    · rw [List.filter_eq_nil_iff]
      intro a ha
      simpa using hnoev a ha
    · exact List.any_eq_true.mpr
        ⟨l, hl, by
          unfold hitsWindow
          rw [hdt]
          exact decide_eq_true ⟨hlt, hle⟩⟩
  · have hmem : l ∈ row.launches.filter
        (fun l' => decide (l'.launch_date.map Date.day = some dt.day)) :=
      List.mem_filter.mpr ⟨hl, by simp [hdt]⟩
    rcases hfl : row.launches.filter
        (fun l' => decide (l'.launch_date.map Date.day = some dt.day)) with
      _ | ⟨l0, rest0⟩
    · rw [hfl] at hmem
      simp at hmem
    · exact ⟨_, _, _, classifyCell_event y mo row dt.day hparse l0 rest0 hfl⟩

/-- Witness for C4: window 5, event on day 10 — day 12 is RECOVERY and
day 10 is an EVENT cell. -/
theorem c4_recovery_window_witness :
    classifyCell 2025 6 c4_row 12 = .ok .recovery ∧
    (∃ cnt col lid, classifyCell 2025 6 c4_row 10 = .ok (.event cnt col lid)) := by
  have h12 := c4_recovery_window 2025 6 c4_row 12 (by decide)
    c4_launch ⟨2025, 6, 10⟩ (by decide) rfl
  have h10 := c4_recovery_window 2025 6 c4_row 10 (by decide)
    c4_launch ⟨2025, 6, 10⟩ (by decide) rfl
  exact ⟨h12.1 ⟨by decide, by decide, by decide⟩, h10.2⟩

/-- Claim C5: a day with at least one current-month event on the pad is
classified EVENT regardless of recovery windows, its count is the number
of same-day events, its colour is the status colour of the first matching
event in supplied order, and clicking it yields that first event's linked
id; moreover each pad row's launch list is exactly the supplied launch
list restricted, in order, to that pad's key. -/
theorem c5_event_cell_contents (y : Int) (mo : Nat) (row : SiteRow) (d : Nat)
    (hparse : ∀ l ∈ row.launches, l.launch_date ≠ none)
    (l0 : Launch) (rest0 : List Launch)
    (hfl : row.launches.filter
      (fun l => decide (l.launch_date.map Date.day = some d)) = l0 :: rest0) :
    classifyCell y mo row d =
      .ok (.event (l0 :: rest0).length (l0.status_color.getD "#FFFF00")
        l0.launch_id) ∧
    cellClick (.event (l0 :: rest0).length (l0.status_color.getD "#FFFF00")
      l0.launch_id) = some l0.launch_id ∧
    (∀ (L : List Launch) (k : SiteKey),
      dictGet L k = L.filter (fun l => decide (launchKey l = k))) :=
  ⟨classifyCell_event y mo row d hparse l0 rest0 hfl, rfl, dictGet_eq⟩

/-- Witness for C5: two same-day events — count 2, colour and click id of
the first in supplied order. -/
theorem c5_event_cell_contents_witness :
    classifyCell 2025 6 c5_row 10 = .ok (.event 2 "#FF0000" 41) ∧
    cellClick (.event 2 "#FF0000" 41) = some 41 := by
  have h := c5_event_cell_contents 2025 6 c5_row 10 (by decide) c5_l1 [c5_l2]
    (by decide)
  exact ⟨h.1, h.2.1⟩

/-- Claim C9: with identical inputs and an unchanged expanded-country set,
a second layout call renders exactly the same grid as the first. -/
theorem c9_layout_idempotent (st : EngineState) (l p : List Launch)
    (s : List Site)
    (h : (update_timeline st l p s).1.expanded_groups = st.expanded_groups) :
    (update_timeline st l p s).2 =
      (update_timeline (update_timeline st l p s).1 l p s).2 := by
  have hexp : (buildRows st.show_only_active st.initial_load st.expanded_groups
      (sortedCountries (countrySitesMap st.show_only_active l s))
      (countrySitesMap st.show_only_active l s)).2 = st.expanded_groups := h
  rw [update_timeline_snd, update_timeline_snd, update_timeline_fst]
  unfold layoutRows
  dsimp only
  rw [hexp]
  rw [buildRows_rows_of_exp_fixed _ _ _ _ _ hexp]

/-- Witness for C9 at a concrete input with no launches (the expanded set
is unchanged by the first call). -/
theorem c9_layout_idempotent_witness :
    (update_timeline (initState 2025 6) [] [] [c9_site]).2 =
      (update_timeline ((update_timeline (initState 2025 6) [] [] [c9_site]).1)
        [] [] [c9_site]).2 :=
  c9_layout_idempotent (initState 2025 6) [] [] [c9_site] (by decide)

/-! ### Group auto-expansion and country filtering -/


theorem any_map_general {α β : Type} (f : α → β) (l : List α) (p : β → Bool) :
    (l.map f).any p = l.any (fun a => p (f a)) := by
  induction l with
  | nil => rfl
  | cons a t ih => simp [List.any_cons, ih]

theorem countryHasLaunches_true_iff (L : List Launch) (sites : List Site)
    (x : String) :
    countryHasLaunches (countrySitesMap true L sites) x = true ↔
      qualifyingCountry L sites x := by
  unfold countryHasLaunches qualifyingCountry
  rw [countrySitesMap_lookup]
  cases hany : sites.any (fun s => decide (bucketOf s = x)) with
  | false =>
    rw [if_neg (by simp)]
    constructor
    · intro h
      exact absurd h (by simp)
    · rintro ⟨site, hmem, hb, -⟩
      have hx : sites.any (fun s => decide (bucketOf s = x)) = true :=
        List.any_eq_true.mpr ⟨site, hmem, decide_eq_true hb⟩
      rw [hany] at hx
      cases hx
  | true =>
    rw [if_pos rfl]
    simp only [Option.getD_some]
    rw [any_map_general]
    constructor
    · intro h
      obtain ⟨s, hsf, hp⟩ := List.any_eq_true.mp h
      obtain ⟨hmem, hcond⟩ := List.mem_filter.mp hsf
      simp only [Bool.and_eq_true, decide_eq_true_eq] at hcond
      obtain ⟨hb, hinc⟩ := hcond
      refine ⟨s, hmem, hb, ?_⟩
      have hk : dictHasKey L (siteKey s) = true := by
        simpa [includeSite] using hinc
      rw [dictHasKey_eq] at hk
      obtain ⟨e, he, hke⟩ := List.any_eq_true.mp hk
      exact ⟨e, he, of_decide_eq_true hke⟩
    · rintro ⟨site, hmem, hb, e, he, hke⟩
      apply List.any_eq_true.mpr
      have hk : dictHasKey L (siteKey site) = true := by
        rw [dictHasKey_eq]
        exact List.any_eq_true.mpr ⟨e, he, decide_eq_true hke⟩
      refine ⟨site, List.mem_filter.mpr ⟨hmem, ?_⟩, ?_⟩
      · simp [includeSite, hb, hk]
      · have hne : dictGet L (siteKey site) ≠ [] :=
          (dictHasKey_iff_dictGet_ne L (siteKey site)).mp hk
        simp only [Function.comp, mkSiteRow]
        simpa [List.isEmpty_iff] using hne

/-- With the active-only filter on and no current-month event on any pad
of country `c`, that country's bucket holds no rows. -/
theorem bucket_empty_of_no_events (L : List Launch) (sites : List Site)
    (c : String)
    (hqual : ∀ s ∈ sites, bucketOf s = c → ∀ e ∈ L, launchKey e ≠ siteKey s) :
    (alistLookup (countrySitesMap true L sites) c).getD [] = [] := by
  rw [countrySitesMap_lookup]
  cases hany : sites.any (fun s => decide (bucketOf s = c)) with
  | false => simp
  | true =>
    rw [if_pos rfl, Option.getD_some]
    rw [List.filter_eq_nil_iff.mpr ?_]
    · rfl
    · intro s hs
      simp only [Bool.and_eq_true, decide_eq_true_eq, not_and]
      intro hb
      have hk : dictHasKey L (siteKey s) = false := by
        rw [dictHasKey_eq]
        rw [List.any_eq_false]
        intro e he
        simp only [decide_eq_true_eq]
        exact fun hke => hqual s hs hb e he hke
      simp [includeSite, hk]

/-- Each site row stored in a country bucket carries that bucket's
country. -/
theorem bucket_rows_country (active : Bool) (L : List Launch)
    (sites : List Site) (c' : String) (sr : SiteRow)
    (hsr : sr ∈ (alistLookup (countrySitesMap active L sites) c').getD []) :
    sr.country = c' := by
  rw [countrySitesMap_lookup] at hsr
  cases hany : sites.any (fun s => decide (bucketOf s = c')) with
  | false =>
    rw [hany] at hsr
    rw [if_neg (by simp)] at hsr
    simp at hsr
  | true =>
    rw [hany] at hsr
    rw [if_pos rfl, Option.getD_some] at hsr
    obtain ⟨s, hs, rfl⟩ := List.mem_map.mp hsr
    obtain ⟨-, hcond⟩ := List.mem_filter.mp hs
    simp only [Bool.and_eq_true, decide_eq_true_eq] at hcond
    simpa [mkSiteRow] using hcond.1

/-- Claim C6: on the very first layout after engine creation every country
with a qualifying pad (a pad with a current-month event) is added to the
expanded set, exactly once since the set stays duplicate-free, and the
initial-load flag is cleared; no later transition ever sets the flag
again, and a layout run with the flag clear leaves the expanded set
untouched. -/
theorem c6_first_layout_autoexpand :
    (∀ (y : Int) (mo : Nat) (l p : List Launch) (s : List Site),
      (update_timeline (initState y mo) l p s).1.initial_load = false ∧
      (update_timeline (initState y mo) l p s).1.expanded_groups.Nodup ∧
      (∀ c, c ∈ (update_timeline (initState y mo) l p s).1.expanded_groups ↔
        qualifyingCountry l s c)) ∧
    (∀ st st', Step st st' → st.initial_load = false →
      st'.initial_load = false) ∧
    (∀ (st : EngineState) (l p : List Launch) (s : List Site),
      st.initial_load = false →
      (update_timeline st l p s).1.expanded_groups = st.expanded_groups ∧
      (update_timeline st l p s).1.initial_load = false) := by
  refine ⟨?_, ?_, ?_⟩
  · intro y mo l p s
    refine ⟨rfl, ?_, ?_⟩
    · rw [update_timeline_fst]
      exact buildRows_exp_nodup _ _ _ _ _ List.nodup_nil
    · intro c
      rw [update_timeline_fst]
      show c ∈ (layoutRows (initState y mo) l s).2 ↔ qualifyingCountry l s c
      unfold layoutRows initState
      dsimp only
      rw [buildRows_exp_mem]
      simp only [List.not_mem_nil, false_or, true_and]
      constructor
      · rintro ⟨-, hchl⟩
        exact (countryHasLaunches_true_iff l s c).mp hchl
      · intro hq
        have hchl : countryHasLaunches (countrySitesMap true l s) c = true :=
          (countryHasLaunches_true_iff l s c).mpr hq
        refine ⟨?_, hchl⟩
        rw [mem_sortedCountries_iff, countrySitesMap_lookup]
        obtain ⟨site, hmem, hb, -⟩ := hq
        rw [if_pos (List.any_eq_true.mpr ⟨site, hmem, decide_eq_true hb⟩)]
        rfl
  · intro st st' hstep hfalse
    cases hstep <;> first | rfl | exact hfalse
  · intro st l p s hfalse
    constructor
    · rw [update_timeline_fst]
      show (layoutRows st l s).2 = st.expanded_groups
      unfold layoutRows
      rw [hfalse]
      exact buildRows_exp_false _ _ _ _
    · rfl

/-- Claim C7: pads are partitioned by country with missing or empty
country mapped to "Other" and, under the active-only filter, a pad kept
only when its key has a current-month event; the group headers appear in
lexicographically sorted country order; and, with the filter on, a country
none of whose pads has a current-month event contributes no row at all. -/
theorem c7_country_grouping (st : EngineState) (L : List Launch)
    (sites : List Site) (c : String)
    (hactive : st.show_only_active = true)
    (hqual : ∀ s ∈ sites, bucketOf s = c → ∀ e ∈ L, launchKey e ≠ siteKey s) :
    (∀ c', alistLookup (countrySitesMap st.show_only_active L sites) c' =
      if sites.any (fun s => decide (bucketOf s = c')) then
        some ((sites.filter (fun s =>
          decide (bucketOf s = c') && includeSite st.show_only_active L s)).map
            (mkSiteRow L))
      else none) ∧
    List.Sorted (fun a b => strLe a b = true)
      (groupCountries (layoutRows st L sites).1) ∧
    (∀ r ∈ (layoutRows st L sites).1, Row.country r ≠ c) := by
  refine ⟨fun c' => countrySitesMap_lookup _ _ _ c', ?_, ?_⟩
  · unfold layoutRows
    exact List.Pairwise.sublist
      (groupCountries_buildRows_sublist _ _ _ _ _)
      (sortedCountries_sorted _)
  · intro r hr
    unfold layoutRows at hr
    obtain ⟨c', hc'cs, hne, hcase⟩ := buildRows_row_source _ _ _ _ _ r hr
    rw [hactive] at hne hcase
    have hc'c : c' ≠ c := by
      rintro rfl
      exact hne (bucket_empty_of_no_events L sites c' hqual)
    rcases hcase with ⟨b, rfl⟩ | ⟨sr, rfl, hsr⟩
    · exact hc'c
    · have : sr.country = c' := bucket_rows_country true L sites c' sr hsr
      show sr.country ≠ c
      rw [this]
      exact hc'c

/-- Witness for C6: the first layout expands the launch's country and
clears the flag; a step from a cleared state keeps it cleared and a later
layout leaves the expanded set unchanged. -/
theorem c6_first_layout_autoexpand_witness :
    "USA" ∈ (update_timeline (initState 2025 4) [c6_launch] [] [c6_site]).1.expanded_groups ∧
    (update_timeline (initState 2025 4) [c6_launch] [] [c6_site]).1.initial_load = false ∧
    (update_timeline c6_state2 [] [] []).1.initial_load = false ∧
    (update_timeline c6_state2 [] [] []).1.expanded_groups = c6_state2.expanded_groups :=
  ⟨((c6_first_layout_autoexpand.1 2025 4 [c6_launch] [] [c6_site]).2.2 "USA").mpr
      ⟨c6_site, by decide, by decide, c6_launch, by decide, by decide⟩,
   (c6_first_layout_autoexpand.1 2025 4 [c6_launch] [] [c6_site]).1,
   c6_first_layout_autoexpand.2.1 c6_state2 _ (Step.update c6_state2 [] [] []) rfl,
   (c6_first_layout_autoexpand.2.2 c6_state2 [] [] [] rfl).1⟩

/-- Witness for C7: with the filter on, the produced group headers are
sorted and no row belongs to the event-free country. -/
theorem c7_country_grouping_witness :
    List.Sorted (fun a b => strLe a b = true) (groupCountries
      (layoutRows (initState 2025 6) [c7_launch] [c7_site_usa, c7_site_empty]).1) ∧
    Row.country (Row.site (mkSiteRow [c7_launch] c7_site_usa)) ≠ "Wonderland" :=
  ⟨(c7_country_grouping (initState 2025 6) [c7_launch] [c7_site_usa, c7_site_empty]
      "Wonderland" rfl (by decide)).2.1,
   (c7_country_grouping (initState 2025 6) [c7_launch] [c7_site_usa, c7_site_empty]
      "Wonderland" rfl (by decide)).2.2
      (Row.site (mkSiteRow [c7_launch] c7_site_usa)) (by decide)⟩

end Shockwave
